import Mathlib

/-!
Verification of the Markowitz Monte Carlo portfolio sampler
(portfolio_app.py).

The script draws random weight vectors, normalizes them, scores each by
expected return, volatility and Sharpe ratio, and designates the
max-Sharpe and min-volatility samples via a first-occurrence arg-max /
arg-min over the sample lists.  Exact arithmetic is modelled over the
rationals, with `Real.sqrt` for the volatility; the behaviour of IEEE
special values (inf / nan) around zero volatility is modelled separately
by the type `FV`.
-/

/-- Dot product of two rational vectors, as computed by np.dot on
one-dimensional arrays (pairwise products, summed; extra entries of the
longer vector are ignored). -/
def dotp (v w : List ℚ) : ℚ :=
  (List.zipWith (fun a b => a * b) v w).sum

/-- Matrix-vector product: np.dot of a matrix with a vector, one dot
product per matrix row. -/
def matVec (m : List (List ℚ)) (v : List ℚ) : List ℚ :=
  m.map (fun row => dotp row v)

/-- Weight normalization from the sampling loop: `weights /= np.sum(weights)`,
dividing every raw draw by the total of the draws. -/
def normalizeWeights (raw : List ℚ) : List ℚ :=
  raw.map (fun x => x / raw.sum)

/-- Portfolio expected return: `ret = np.dot(weights, mean_returns)`. -/
def portRet (w mean_returns : List ℚ) : ℚ :=
  dotp w mean_returns

/-- The quadratic form under the square root in the volatility:
`np.dot(weights.T, np.dot(cov_matrix, weights))`. -/
def volSq (w : List ℚ) (cov_matrix : List (List ℚ)) : ℚ :=
  dotp w (matVec cov_matrix w)

/-- Portfolio volatility: `vol = np.sqrt(...)` applied to the quadratic
form (exact-arithmetic model over the reals). -/
noncomputable def portVol (w : List ℚ) (cov_matrix : List (List ℚ)) : ℝ :=
  Real.sqrt ((volSq w cov_matrix : ℚ) : ℝ)

/-- Sharpe ratio of a portfolio: `sharpe = (ret - risk_free_rate) / vol`. -/
noncomputable def portSharpe (w mean_returns : List ℚ) (cov_matrix : List (List ℚ))
    (risk_free_rate : ℚ) : ℝ :=
  (((portRet w mean_returns : ℚ) : ℝ) - ((risk_free_rate : ℚ) : ℝ)) / portVol w cov_matrix

/-- Weight vector produced at iteration i of the Monte Carlo loop: the
raw draws of that iteration, normalized by their sum. -/
def wAt (rand : Nat → List ℚ) (i : Nat) : List ℚ :=
  normalizeWeights (rand i)

/-- Expected return of the i-th sample. -/
def retAt (rand : Nat → List ℚ) (mean_returns : List ℚ) (i : Nat) : ℚ :=
  portRet (wAt rand i) mean_returns

/-- Quadratic form of the i-th sample. -/
def volSqAt (rand : Nat → List ℚ) (cov_matrix : List (List ℚ)) (i : Nat) : ℚ :=
  volSq (wAt rand i) cov_matrix

/-- Volatility of the i-th sample. -/
noncomputable def volAt (rand : Nat → List ℚ) (cov_matrix : List (List ℚ)) (i : Nat) : ℝ :=
  Real.sqrt ((volSqAt rand cov_matrix i : ℚ) : ℝ)

/-- Sharpe ratio of the i-th sample. -/
noncomputable def sharpeAt (rand : Nat → List ℚ) (mean_returns : List ℚ)
    (cov_matrix : List (List ℚ)) (risk_free_rate : ℚ) (i : Nat) : ℝ :=
  (((retAt rand mean_returns i : ℚ) : ℝ) - (risk_free_rate : ℚ)) / volAt rand cov_matrix i

/-- The list `port_weights` accumulated by the loop over num_portfolios. -/
def port_weights (rand : Nat → List ℚ) (num_portfolios : Nat) : List (List ℚ) :=
  (List.range num_portfolios).map (wAt rand)

/-- The list `port_returns` accumulated by the loop. -/
def port_returns (rand : Nat → List ℚ) (mean_returns : List ℚ)
    (num_portfolios : Nat) : List ℚ :=
  (List.range num_portfolios).map (retAt rand mean_returns)

/-- The list `port_volatility` accumulated by the loop. -/
noncomputable def port_volatility (rand : Nat → List ℚ) (cov_matrix : List (List ℚ))
    (num_portfolios : Nat) : List ℝ :=
  (List.range num_portfolios).map (volAt rand cov_matrix)

/-- The list `sharpe_ratios` accumulated by the loop. -/
noncomputable def sharpe_ratios (rand : Nat → List ℚ) (mean_returns : List ℚ)
    (cov_matrix : List (List ℚ)) (risk_free_rate : ℚ) (num_portfolios : Nat) : List ℝ :=
  (List.range num_portfolios).map (sharpeAt rand mean_returns cov_matrix risk_free_rate)

/-- Index designated by `results["Sharpe Ratio"].idxmax()`: the first
index attaining the maximal Sharpe ratio (pandas keeps the earliest
label on ties, as does List.argmax). -/
noncomputable def max_sharpe_idx (rand : Nat → List ℚ) (mean_returns : List ℚ)
    (cov_matrix : List (List ℚ)) (risk_free_rate : ℚ) (num_portfolios : Nat) : Nat :=
  (List.argmax (sharpeAt rand mean_returns cov_matrix risk_free_rate)
    (List.range num_portfolios)).getD 0

/-- Index designated by `results["Volatility"].idxmin()`: the first index
attaining the minimal volatility. -/
noncomputable def min_vol_idx (rand : Nat → List ℚ) (cov_matrix : List (List ℚ))
    (num_portfolios : Nat) : Nat :=
  (List.argmin (volAt rand cov_matrix) (List.range num_portfolios)).getD 0

/-- One row of `data.pct_change()`: the fractional change of each column
relative to the previous row, missing whenever either price is missing. -/
def pctChangeRow (prev cur : List (Option ℚ)) : List (Option ℚ) :=
  List.zipWith
    (fun p c =>
      match p, c with
      | some p0, some c0 => some ((c0 - p0) / p0)
      | _, _ => none)
    prev cur

/-- Rows of `pct_change` after the first, each computed against the
previous price row. -/
def pctChangeFrom (prev : List (Option ℚ)) : List (List (Option ℚ)) → List (List (Option ℚ))
  | [] => []
  | cur :: rest => pctChangeRow prev cur :: pctChangeFrom cur rest

/-- The table `data.pct_change()`: the first row is all missing, every
later row is the per-column fractional change against the previous row. -/
def pctChange : List (List (Option ℚ)) → List (List (Option ℚ))
  | [] => []
  | r0 :: rest => r0.map (fun _ => (none : Option ℚ)) :: pctChangeFrom r0 rest

/-- The operation `.dropna()`: keep only rows with no missing entry. -/
def dropna (t : List (List (Option ℚ))) : List (List (Option ℚ)) :=
  t.filter (fun r => r.all (fun x => x.isSome))

/-- The table `returns = data.pct_change().dropna()` from the source. -/
def returnsTable (prices : List (List (Option ℚ))) : List (List (Option ℚ)) :=
  dropna (pctChange prices)

/-- Present values of column j of a table, in row order (pandas
statistics skip missing entries). -/
def colVals (t : List (List (Option ℚ))) (j : Nat) : List ℚ :=
  t.filterMap (fun r => r.getD j none)

/-- Mean of a rational series (empty series gives 0, standing in for the
undefined pandas NaN). -/
def seriesMean (xs : List ℚ) : ℚ :=
  xs.sum / (xs.length : ℚ)

/-- Column mean as pandas computes it: mean over the present entries of
the column. -/
def pandasColMean (t : List (List (Option ℚ))) (j : Nat) : ℚ :=
  seriesMean (colVals t j)

/-- Rows where both column i and column j are present, as value pairs
(pandas covariance uses pairwise-complete observations). -/
def pairVals (t : List (List (Option ℚ))) (i j : Nat) : List (ℚ × ℚ) :=
  t.filterMap
    (fun r =>
      match r.getD i none, r.getD j none with
      | some a, some b => some (a, b)
      | _, _ => none)

/-- Sample covariance (pandas default ddof = 1) of a list of value
pairs; fewer than two pairs gives 0, standing in for NaN. -/
def covOfPairs (ps : List (ℚ × ℚ)) : ℚ :=
  (ps.map (fun p => (p.1 - seriesMean (ps.map Prod.fst))
      * (p.2 - seriesMean (ps.map Prod.snd)))).sum
    / ((ps.length : ℚ) - 1)

/-- Entry j of `mean_returns = returns.mean() * 252` from the source. -/
def mean_returns (prices : List (List (Option ℚ))) (j : Nat) : ℚ :=
  252 * pandasColMean (returnsTable prices) j

/-- Entry (i, j) of `cov_matrix = returns.cov() * 252` from the source. -/
def cov_matrix (prices : List (List (Option ℚ))) (i j : Nat) : ℚ :=
  252 * covOfPairs (pairVals (returnsTable prices) i j)

/-- Clean return rows as the spec describes them: per-period fractional
changes, keeping exactly the rows with no missing value across tickers,
each row read off as plain rationals. -/
def specCleanRows (prices : List (List (Option ℚ))) : List (List ℚ) :=
  (pctChange prices).filterMap
    (fun r => if r.all (fun x => x.isSome) then some r.reduceOption else none)

/-- Mean-return entry as the spec describes it: the per-ticker average
of the clean return rows, multiplied by 252. -/
def specMeanReturn (prices : List (List (Option ℚ))) (j : Nat) : ℚ :=
  252 * seriesMean ((specCleanRows prices).map (fun r => r.getD j 0))

/-- Covariance entry as the spec describes it: the pairwise covariance
of columns i and j of the clean return rows, multiplied by 252. -/
def specCov (prices : List (List (Option ℚ))) (i j : Nat) : ℚ :=
  252 * covOfPairs ((specCleanRows prices).map (fun r => (r.getD i 0, r.getD j 0)))

/-- IEEE-style scalar as produced by the float computation of a Sharpe
ratio: a finite value, positive or negative infinity, or NaN. -/
inductive FV where
  | fin (x : ℝ)
  | pinf
  | ninf
  | nan

/-- NaN test for an FV scalar. -/
def FV.isNan : FV → Bool
  | FV.nan => true
  | _ => false

/-- Order embedding of the non-NaN FV scalars into the extended reals,
used to compare Sharpe values the way pandas compares floats. -/
noncomputable def FV.toEReal : FV → EReal
  | FV.fin x => (x : EReal)
  | FV.pinf => ⊤
  | FV.ninf => ⊥
  | FV.nan => ⊥

/-- Float Sharpe ratio of a sample with exact return ret and exact
quadratic form q: np.sqrt of a negative q is NaN and poisons the
division; division of a nonzero numerator by zero volatility gives a
signed infinity; 0/0 gives NaN; otherwise the value is finite. -/
noncomputable def floatSharpe (ret risk_free_rate q : ℚ) : FV :=
  if q < 0 then FV.nan
  else if q = 0 then
    if risk_free_rate < ret then FV.pinf
    else if ret < risk_free_rate then FV.ninf
    else FV.nan
  else FV.fin ((((ret : ℚ) : ℝ) - ((risk_free_rate : ℚ) : ℝ)) / Real.sqrt ((q : ℚ) : ℝ))

/-- Index returned by pandas idxmax over a float series: NaN entries are
skipped, the remaining entries are compared (infinities included), and
the first index attaining the maximum is returned; none when every entry
is NaN. -/
noncomputable def fvIdxmax (l : List FV) : Option Nat :=
  List.argmax (fun i => FV.toEReal (l.getD i FV.nan))
    ((List.range l.length).filter (fun i => !(l.getD i FV.nan).isNan))

/-- Float volatility of a sample with exact quadratic form q: np.sqrt
returns NaN (modelled as none) on a negative argument and applies no
clamping; otherwise the exact square root. -/
noncomputable def floatVol (q : ℚ) : Option ℝ :=
  if q < 0 then none else some (Real.sqrt ((q : ℚ) : ℝ))

/-- Modelled from the spec: volatility with the clamp the spec asks for,
where a negative quadratic form is clamped to 0 before the square root
is applied. -/
noncomputable def clampedVol (q : ℚ) : ℝ :=
  Real.sqrt ((max q 0 : ℚ) : ℝ)

/-- Linear congruential step, standing in for one state update of the
pseudo-random generator. -/
def lcg (s : Nat) : Nat :=
  (1103515245 * s + 12345) % 2 ^ 31

/-- Iterated generator state after k steps from a seed. -/
def lcgIter : Nat → Nat → Nat
  | 0, s => s
  | k + 1, s => lcg (lcgIter k s)

/-- Modelled from the spec: the source draws from the global numpy
generator without exposing a seed, and the spec presumes a fixed seed
that determines the whole stream of draws; this derives iteration i of
an n-wide draw stream deterministically from the seed, each draw a
rational in [0, 1). -/
def seededRand (seed n : Nat) (i : Nat) : List ℚ :=
  (List.range n).map (fun j => ((lcgIter (i * n + j + 1) seed : Nat) : ℚ) / (2 ^ 31 : ℚ))

/-- The full output of one sampler invocation under a seed: the four
sample lists produced by the loop. -/
noncomputable def simulateSeeded (seed n : Nat) (mean_rets : List ℚ)
    (covm : List (List ℚ)) (risk_free_rate : ℚ) (num_portfolios : Nat) :
    List (List ℚ) × List ℚ × List ℝ × List ℝ :=
  (port_weights (seededRand seed n) num_portfolios,
   port_returns (seededRand seed n) mean_rets num_portfolios,
   port_volatility (seededRand seed n) covm num_portfolios,
   sharpe_ratios (seededRand seed n) mean_rets covm risk_free_rate num_portfolios)

lemma sum_map_div (l : List ℚ) (s : ℚ) :
    (l.map (fun x => x / s)).sum = l.sum / s := by
  induction l with
  | nil => simp
  | cons a t ih => simp [ih, add_div]

/-- C1 counterexample: a raw draw of a single 0 lies in [0, 1), yet the
normalized weight vector it produces sums to 0, not 1, because the
normalization divides by a zero total. -/
theorem c1_counterexample :
    (∀ x ∈ (fun _ : Nat => [(0 : ℚ)]) 0, 0 ≤ x ∧ x < 1) ∧
    (wAt (fun _ : Nat => [(0 : ℚ)]) 0).length = 1 ∧
    (wAt (fun _ : Nat => [(0 : ℚ)]) 0).sum ≠ 1 := by
  refine ⟨?_, ?_, ?_⟩
  · intro x hx
    simp only [List.mem_singleton] at hx
    subst hx
    norm_num
  · simp [wAt, normalizeWeights]
  · simp [wAt, normalizeWeights]

/-- C1 (amended): every weight vector produced by the sampler has length
n, non-negative components, and components summing exactly to 1,
provided the raw draws of that iteration are non-negative with positive
total (which fails only for the all-zero draw). -/
theorem c1_weights_valid (rand : Nat → List ℚ) (n i : Nat)
    (hlen : (rand i).length = n)
    (hge : ∀ x ∈ rand i, 0 ≤ x)
    (hsum : 0 < (rand i).sum) :
    (wAt rand i).length = n ∧ (∀ w ∈ wAt rand i, 0 ≤ w) ∧ (wAt rand i).sum = 1 := by
  refine ⟨by simpa [wAt, normalizeWeights] using hlen, ?_, ?_⟩
  · intro w hw
    simp only [wAt, normalizeWeights, List.mem_map] at hw
    obtain ⟨x, hx, rfl⟩ := hw
    exact div_nonneg (hge x hx) (le_of_lt hsum)
  · rw [wAt, normalizeWeights, sum_map_div]
    exact div_self (ne_of_gt hsum)

/-- C1 witness: the amended statement at the concrete draw [1/2, 1/4]. -/
theorem c1_weights_valid_witness :
    (wAt (fun _ : Nat => [(1 : ℚ)/2, 1/4]) 0).length = 2 ∧
    (∀ w ∈ wAt (fun _ : Nat => [(1 : ℚ)/2, 1/4]) 0, 0 ≤ w) ∧
    (wAt (fun _ : Nat => [(1 : ℚ)/2, 1/4]) 0).sum = 1 :=
  c1_weights_valid _ 2 0 rfl (by norm_num [List.forall_mem_cons])
    (by norm_num [List.sum_cons, List.sum_nil])

/-- C3: the sampler scores a weight vector by return = dot(w, means),
volatility = sqrt of the quadratic form, Sharpe = (return - rate) /
volatility; at means [0.10, 0.20], covariances [[0.04, 0], [0, 0.09]],
rate 0.03 and weights [0.5, 0.5] this gives return 0.15 = 3/20,
volatility sqrt(0.0325) = sqrt(13/400), and Sharpe 0.12 / sqrt(0.0325). -/
theorem c3_concrete_scoring :
    (∀ rand mean_rets covm rf i, retAt rand mean_rets i = portRet (wAt rand i) mean_rets ∧
      volAt rand covm i = portVol (wAt rand i) covm ∧
      sharpeAt rand mean_rets covm rf i = portSharpe (wAt rand i) mean_rets covm rf) ∧
    portRet [1/2, 1/2] [1/10, 1/5] = 3/20 ∧
    volSq [1/2, 1/2] [[1/25, 0], [0, 9/100]] = 13/400 ∧
    portVol [1/2, 1/2] [[1/25, 0], [0, 9/100]] = Real.sqrt (13/400) ∧
    portSharpe [1/2, 1/2] [1/10, 1/5] [[1/25, 0], [0, 9/100]] (3/100)
      = (3/25) / Real.sqrt (13/400) := by
  have hv : volSq [1/2, 1/2] [[1/25, 0], [0, 9/100]] = 13/400 := by
    norm_num [volSq, dotp, matVec, List.zipWith_cons_cons, List.sum_cons, List.sum_nil]
  have hr : portRet [1/2, 1/2] [1/10, 1/5] = 3/20 := by
    norm_num [portRet, dotp, List.zipWith_cons_cons, List.sum_cons, List.sum_nil]
  have hc : ((13/400 : ℚ) : ℝ) = 13/400 := by norm_num
  refine ⟨fun rand mean_rets covm rf i => ⟨rfl, rfl, rfl⟩, hr, hv, ?_, ?_⟩
  · rw [portVol, hv, hc]
  · rw [portSharpe, portVol, hv, hc, hr]
    norm_num

/-- C10: for every sample, Sharpe times volatility equals return minus
the risk-free rate, whenever the volatility is nonzero. -/
theorem c10_sharpe_vol_identity (rand : Nat → List ℚ) (mean_rets : List ℚ)
    (covm : List (List ℚ)) (rf : ℚ) (i : Nat)
    (h : volAt rand covm i ≠ 0) :
    sharpeAt rand mean_rets covm rf i * volAt rand covm i
      = ((retAt rand mean_rets i : ℚ) : ℝ) - ((rf : ℚ) : ℝ) := by
  rw [sharpeAt]
  exact div_mul_cancel₀ _ h

/-- C10 witness: the identity at a concrete sample with volatility 1. -/
theorem c10_sharpe_vol_identity_witness :
    sharpeAt (fun _ : Nat => [(1 : ℚ)]) [1] [[1]] 0 0 * volAt (fun _ : Nat => [(1 : ℚ)]) [[1]] 0
      = ((retAt (fun _ : Nat => [(1 : ℚ)]) [1] 0 : ℚ) : ℝ) - ((0 : ℚ) : ℝ) := by
  have hq : volSqAt (fun _ : Nat => [(1 : ℚ)]) [[1]] 0 = 1 := by
    norm_num [volSqAt, volSq, wAt, normalizeWeights, dotp, matVec,
      List.zipWith_cons_cons, List.sum_cons, List.sum_nil]
  have hvol : volAt (fun _ : Nat => [(1 : ℚ)]) [[1]] 0 ≠ 0 := by
    rw [volAt, hq]
    norm_num
  exact c10_sharpe_vol_identity (fun _ : Nat => [(1 : ℚ)]) [1] [[1]] 0 0 hvol

lemma getD_map_range {α : Type _} (d : α) (f : Nat → α) {j N : Nat} (hj : j < N) :
    ((List.range N).map f).getD j d = f j := by
  rw [List.getD_eq_getElem?_getD, List.getElem?_map, List.getElem?_range hj]
  rfl

lemma argmax_range_exists (f : Nat → ℝ) {N : Nat} (hN : 1 ≤ N) :
    ∃ m, List.argmax f (List.range N) = some m := by
  cases h : List.argmax f (List.range N) with
  | none =>
      rw [List.argmax_eq_none] at h
      have hlen : N = 0 := by simpa using congrArg List.length h
      omega
  | some m => exact ⟨m, rfl⟩

lemma argmin_range_exists (f : Nat → ℝ) {N : Nat} (hN : 1 ≤ N) :
    ∃ m, List.argmin f (List.range N) = some m := by
  cases h : List.argmin f (List.range N) with
  | none =>
      rw [List.argmin_eq_none] at h
      have hlen : N = 0 := by simpa using congrArg List.length h
      omega
  | some m => exact ⟨m, rfl⟩

lemma max_sharpe_idx_spec (rand : Nat → List ℚ) (mean_rets : List ℚ)
    (covm : List (List ℚ)) (rf : ℚ) {N : Nat} (hN : 1 ≤ N) :
    max_sharpe_idx rand mean_rets covm rf N < N ∧
    ∀ j < N, sharpeAt rand mean_rets covm rf j
      ≤ sharpeAt rand mean_rets covm rf (max_sharpe_idx rand mean_rets covm rf N) := by
  obtain ⟨m, hm⟩ := argmax_range_exists (sharpeAt rand mean_rets covm rf) hN
  have hidx : max_sharpe_idx rand mean_rets covm rf N = m := by
    rw [max_sharpe_idx, hm]
    rfl
  have hmem : m ∈ List.range N := List.argmax_mem (Option.mem_def.mpr hm)
  refine ⟨by rw [hidx]; exact List.mem_range.mp hmem, ?_⟩
  intro j hj
  rw [hidx]
  exact List.le_of_mem_argmax (List.mem_range.mpr hj) (Option.mem_def.mpr hm)

lemma min_vol_idx_spec (rand : Nat → List ℚ) (covm : List (List ℚ)) {N : Nat} (hN : 1 ≤ N) :
    min_vol_idx rand covm N < N ∧
    ∀ j < N, volAt rand covm (min_vol_idx rand covm N) ≤ volAt rand covm j := by
  obtain ⟨m, hm⟩ := argmin_range_exists (volAt rand covm) hN
  have hidx : min_vol_idx rand covm N = m := by
    rw [min_vol_idx, hm]
    rfl
  have hmem : m ∈ List.range N := List.argmin_mem (Option.mem_def.mpr hm)
  refine ⟨by rw [hidx]; exact List.mem_range.mp hmem, ?_⟩
  intro j hj
  rw [hidx]
  exact List.le_of_mem_argmin (List.mem_range.mpr hj) (Option.mem_def.mpr hm)

lemma range_one_eq : List.range 1 = [0] := by
  simp [List.range_succ]

/-- C2: for valid inputs (n >= 1, num_portfolios >= 1, a covariance
matrix whose quadratic form is non-negative on the samples), the loop
produces exactly num_portfolios entries in each of the four sample
lists, every stored weight vector has length n, the designated
max-Sharpe index is in range with Sharpe ratio at least that of every
sample, the designated min-volatility index is in range with volatility
at most that of every sample, and with a single sample both designated
indices are that sample. -/
theorem c2_frontier_result (rand : Nat → List ℚ) (n : Nat) (mean_rets : List ℚ)
    (covm : List (List ℚ)) (rf : ℚ) (N : Nat)
    (hn : 1 ≤ n) (hN : 1 ≤ N)
    (hlen : ∀ i, (rand i).length = n)
    (hpsd : ∀ i < N, 0 ≤ volSqAt rand covm i) :
    (port_weights rand N).length = N ∧
    (port_returns rand mean_rets N).length = N ∧
    (port_volatility rand covm N).length = N ∧
    (sharpe_ratios rand mean_rets covm rf N).length = N ∧
    (∀ j < N, ((port_weights rand N).getD j []).length = n) ∧
    max_sharpe_idx rand mean_rets covm rf N < N ∧
    min_vol_idx rand covm N < N ∧
    (∀ j < N, sharpeAt rand mean_rets covm rf j
      ≤ sharpeAt rand mean_rets covm rf (max_sharpe_idx rand mean_rets covm rf N)) ∧
    (∀ j < N, volAt rand covm (min_vol_idx rand covm N) ≤ volAt rand covm j) ∧
    (N = 1 → max_sharpe_idx rand mean_rets covm rf N = 0 ∧ min_vol_idx rand covm N = 0) := by
  obtain ⟨hmaxlt, hmaxle⟩ := max_sharpe_idx_spec rand mean_rets covm rf hN
  obtain ⟨hminlt, hminle⟩ := min_vol_idx_spec rand covm hN
  refine ⟨by simp [port_weights], by simp [port_returns], by simp [port_volatility],
    by simp [sharpe_ratios], ?_, hmaxlt, hminlt, hmaxle, hminle, ?_⟩
  · intro j hj
    rw [port_weights, getD_map_range _ _ hj]
    simp [wAt, normalizeWeights, hlen j]
  · intro h1
    subst h1
    constructor
    · rw [max_sharpe_idx, range_one_eq, List.argmax_singleton]
      rfl
    · rw [min_vol_idx, range_one_eq, List.argmin_singleton]
      rfl

/-- C2 witness: the frontier result at one sample over one asset. -/
theorem c2_frontier_result_witness :
    (port_weights (fun _ : Nat => [(1 : ℚ)]) 1).length = 1 ∧
    (port_returns (fun _ : Nat => [(1 : ℚ)]) [1] 1).length = 1 ∧
    (port_volatility (fun _ : Nat => [(1 : ℚ)]) [[1]] 1).length = 1 ∧
    (sharpe_ratios (fun _ : Nat => [(1 : ℚ)]) [1] [[1]] 0 1).length = 1 ∧
    (∀ j < 1, ((port_weights (fun _ : Nat => [(1 : ℚ)]) 1).getD j []).length = 1) ∧
    max_sharpe_idx (fun _ : Nat => [(1 : ℚ)]) [1] [[1]] 0 1 < 1 ∧
    min_vol_idx (fun _ : Nat => [(1 : ℚ)]) [[1]] 1 < 1 ∧
    (∀ j < 1, sharpeAt (fun _ : Nat => [(1 : ℚ)]) [1] [[1]] 0 j
      ≤ sharpeAt (fun _ : Nat => [(1 : ℚ)]) [1] [[1]] 0
          (max_sharpe_idx (fun _ : Nat => [(1 : ℚ)]) [1] [[1]] 0 1)) ∧
    (∀ j < 1, volAt (fun _ : Nat => [(1 : ℚ)]) [[1]]
        (min_vol_idx (fun _ : Nat => [(1 : ℚ)]) [[1]] 1)
      ≤ volAt (fun _ : Nat => [(1 : ℚ)]) [[1]] j) ∧
    (1 = 1 → max_sharpe_idx (fun _ : Nat => [(1 : ℚ)]) [1] [[1]] 0 1 = 0 ∧
      min_vol_idx (fun _ : Nat => [(1 : ℚ)]) [[1]] 1 = 0) :=
  c2_frontier_result (fun _ : Nat => [(1 : ℚ)]) 1 [1] [[1]] 0 1 le_rfl le_rfl
    (fun _ => rfl)
    (fun i _ => by
      norm_num [volSqAt, volSq, wAt, normalizeWeights, dotp, matVec,
        List.zipWith_cons_cons, List.sum_cons, List.sum_nil])

/-- C9: the four sample lists stay index-aligned: for every index j the
stored return, volatility and Sharpe ratio are exactly the scores of the
stored j-th weight vector, and in particular the weight vector reported
at the designated max-Sharpe index reproduces the reported max-Sharpe
return as its dot product with the mean-return vector. -/
theorem c9_index_alignment (rand : Nat → List ℚ) (mean_rets : List ℚ)
    (covm : List (List ℚ)) (rf : ℚ) (N : Nat) (hN : 1 ≤ N) :
    (∀ j < N,
      (port_returns rand mean_rets N).getD j 0
        = portRet ((port_weights rand N).getD j []) mean_rets ∧
      (port_volatility rand covm N).getD j 0
        = portVol ((port_weights rand N).getD j []) covm ∧
      (sharpe_ratios rand mean_rets covm rf N).getD j 0
        = portSharpe ((port_weights rand N).getD j []) mean_rets covm rf) ∧
    dotp ((port_weights rand N).getD (max_sharpe_idx rand mean_rets covm rf N) []) mean_rets
      = (port_returns rand mean_rets N).getD (max_sharpe_idx rand mean_rets covm rf N) 0 := by
  have halign : ∀ j < N,
      (port_returns rand mean_rets N).getD j 0
        = portRet ((port_weights rand N).getD j []) mean_rets ∧
      (port_volatility rand covm N).getD j 0
        = portVol ((port_weights rand N).getD j []) covm ∧
      (sharpe_ratios rand mean_rets covm rf N).getD j 0
        = portSharpe ((port_weights rand N).getD j []) mean_rets covm rf := by
    intro j hj
    rw [port_returns, port_weights, port_volatility, sharpe_ratios,
      getD_map_range _ _ hj, getD_map_range _ _ hj, getD_map_range _ _ hj,
      getD_map_range _ _ hj]
    exact ⟨rfl, rfl, rfl⟩
  refine ⟨halign, ?_⟩
  obtain ⟨hlt, _⟩ := max_sharpe_idx_spec rand mean_rets covm rf hN
  exact ((halign _ hlt).1).symm

/-- C9 witness: index alignment at one sample over one asset. -/
theorem c9_index_alignment_witness :
    (∀ j < 1,
      (port_returns (fun _ : Nat => [(1 : ℚ)]) [1] 1).getD j 0
        = portRet ((port_weights (fun _ : Nat => [(1 : ℚ)]) 1).getD j []) [1] ∧
      (port_volatility (fun _ : Nat => [(1 : ℚ)]) [[1]] 1).getD j 0
        = portVol ((port_weights (fun _ : Nat => [(1 : ℚ)]) 1).getD j []) [[1]] ∧
      (sharpe_ratios (fun _ : Nat => [(1 : ℚ)]) [1] [[1]] 0 1).getD j 0
        = portSharpe ((port_weights (fun _ : Nat => [(1 : ℚ)]) 1).getD j []) [1] [[1] ] 0) ∧
    dotp ((port_weights (fun _ : Nat => [(1 : ℚ)]) 1).getD
        (max_sharpe_idx (fun _ : Nat => [(1 : ℚ)]) [1] [[1]] 0 1) []) [1]
      = (port_returns (fun _ : Nat => [(1 : ℚ)]) [1] 1).getD
          (max_sharpe_idx (fun _ : Nat => [(1 : ℚ)]) [1] [[1]] 0 1) 0 :=
  c9_index_alignment (fun _ : Nat => [(1 : ℚ)]) [1] [[1]] 0 1 le_rfl

/-- C4 counterexample: with an empty ticker list (every draw is the
empty vector) the sampler does not stop; one requested iteration still
produces one (degenerate) sample, so samples are produced. -/
theorem c4_counterexample :
    (port_weights (fun _ : Nat => ([] : List ℚ)) 1).length = 1 ∧
    port_weights (fun _ : Nat => ([] : List ℚ)) 1 ≠ [] := by
  constructor
  · simp [port_weights]
  · rw [port_weights, range_one_eq]
    simp

/-- C4 (amended): with n = 0 the code performs no input validation and
does not fail; the loop still runs num_portfolios times and produces
that many degenerate samples, each with an empty weight vector, return
0 and quadratic form 0. -/
theorem c4_degenerate_run (rand : Nat → List ℚ) (mean_rets : List ℚ)
    (covm : List (List ℚ)) (N : Nat)
    (hempty : ∀ i, rand i = []) :
    (port_weights rand N).length = N ∧
    (∀ i < N, wAt rand i = [] ∧ retAt rand mean_rets i = 0 ∧ volSqAt rand covm i = 0) := by
  refine ⟨by simp [port_weights], ?_⟩
  intro i _
  have hw : wAt rand i = [] := by simp [wAt, normalizeWeights, hempty i]
  refine ⟨hw, ?_, ?_⟩
  · rw [retAt, hw]
    simp [portRet, dotp]
  · rw [volSqAt, hw]
    simp [volSq, dotp, matVec]

/-- C4 witness: the degenerate run over an empty ticker list with two
requested samples. -/
theorem c4_degenerate_run_witness :
    (port_weights (fun _ : Nat => ([] : List ℚ)) 2).length = 2 ∧
    (∀ i < 2, wAt (fun _ : Nat => ([] : List ℚ)) i = [] ∧
      retAt (fun _ : Nat => ([] : List ℚ)) [] i = 0 ∧
      volSqAt (fun _ : Nat => ([] : List ℚ)) [] i = 0) :=
  c4_degenerate_run (fun _ : Nat => ([] : List ℚ)) [] [] 2 (fun _ => rfl)

/-- C6 counterexample: the code applies np.sqrt directly with no clamp;
at weights [1] and matrix [[-1]] the quadratic form is -1, the float
volatility is NaN (none), not the clamped value sqrt 0 the claim
requires. -/
theorem c6_counterexample :
    volSq [1] [[(-1 : ℚ)]] = -1 ∧
    floatVol (volSq [1] [[(-1 : ℚ)]]) = none ∧
    floatVol (volSq [1] [[(-1 : ℚ)]]) ≠ some (clampedVol (volSq [1] [[(-1 : ℚ)]])) := by
  have h : volSq [1] [[(-1 : ℚ)]] = -1 := by
    norm_num [volSq, dotp, matVec, List.zipWith_cons_cons, List.sum_cons, List.sum_nil]
  have hnone : floatVol (volSq [1] [[(-1 : ℚ)]]) = none := by
    rw [h, floatVol, if_pos (by norm_num)]
  exact ⟨h, hnone, by rw [hnone]; exact fun hcontra => Option.noConfusion hcontra⟩

/-- C6 (amended): the code applies the square root with no clamping;
whenever the quadratic form is non-negative (as for any true covariance
matrix) the float volatility is defined and equals the non-negative
real square root of the quadratic form. -/
theorem c6_vol_nonneg (w : List ℚ) (covm : List (List ℚ))
    (h : 0 ≤ volSq w covm) :
    floatVol (volSq w covm) = some (portVol w covm) ∧ 0 ≤ portVol w covm := by
  refine ⟨?_, Real.sqrt_nonneg _⟩
  rw [floatVol, if_neg (not_lt.mpr h)]
  rfl

/-- C6 witness: the amended statement at weights [1] and matrix [[1]]. -/
theorem c6_vol_nonneg_witness :
    floatVol (volSq [1] [[(1 : ℚ)]]) = some (portVol [1] [[(1 : ℚ)]]) ∧
    0 ≤ portVol [1] [[(1 : ℚ)]] :=
  c6_vol_nonneg [1] [[1]]
    (by norm_num [volSq, dotp, matVec, List.zipWith_cons_cons, List.sum_cons, List.sum_nil])

/-- C8: the sampler is deterministic given the seed: two invocations
with equal seeds, equal statistics, equal risk-free rate and equal
sample count return identical outputs. -/
theorem c8_seed_determinism (sa sb na nb : Nat) (ma mb : List ℚ)
    (ca cb : List (List ℚ)) (ra rb : ℚ) (Na Nb : Nat)
    (hs : sa = sb) (hn : na = nb) (hm : ma = mb) (hc : ca = cb)
    (hr : ra = rb) (hN : Na = Nb) :
    simulateSeeded sa na ma ca ra Na = simulateSeeded sb nb mb cb rb Nb := by
  subst hs hn hm hc hr hN
  rfl

/-- C8 witness: determinism at a concrete seed and concrete inputs. -/
theorem c8_seed_determinism_witness :
    simulateSeeded 7 2 [1, 2] [[1, 0], [0, 1]] (1/25) 3
      = simulateSeeded 7 2 [1, 2] [[1, 0], [0, 1]] (1/25) 3 :=
  c8_seed_determinism 7 7 2 2 [1, 2] [1, 2] [[1, 0], [0, 1]] [[1, 0], [0, 1]]
    (1/25) (1/25) 3 3 rfl rfl rfl rfl rfl rfl

lemma fvIdxmax_pinf_fin (s : ℝ) : fvIdxmax [FV.pinf, FV.fin s] = some 0 := by
  rw [fvIdxmax]
  have hlen : ([FV.pinf, FV.fin s] : List FV).length = 2 := rfl
  rw [hlen]
  have hrange : List.range 2 = [0, 1] := by
    simp [List.range_succ]
  rw [hrange]
  have hfil : (([0, 1] : List Nat).filter
      (fun i => !(([FV.pinf, FV.fin s] : List FV).getD i FV.nan).isNan)) = [0, 1] := by
    simp [List.filter_cons, List.getD_cons_zero, List.getD_cons_succ, FV.isNan]
  rw [hfil, List.argmax_cons, List.argmax_singleton]
  simp only [List.getD_cons_zero, List.getD_cons_succ, FV.toEReal]
  rw [if_neg not_top_lt]

lemma floatSharpe_pos_zero_vol {ret rate : ℚ} (h : rate < ret) :
    floatSharpe ret rate 0 = FV.pinf := by
  rw [floatSharpe, if_neg (lt_irrefl 0), if_pos rfl, if_pos h]

lemma floatSharpe_pos_q {ret rate q : ℚ} (h : 0 < q) :
    floatSharpe ret rate q
      = FV.fin ((((ret : ℚ) : ℝ) - ((rate : ℚ) : ℝ)) / Real.sqrt ((q : ℚ) : ℝ)) := by
  rw [floatSharpe, if_neg (not_lt.mpr (le_of_lt h)), if_neg (ne_of_gt h)]

/-- C5 counterexample: a zero-volatility sample whose return exceeds the
risk-free rate gets Sharpe ratio plus infinity, and pandas idxmax
designates it as the max-Sharpe sample even though a finite-Sharpe
sample exists, so non-finite Sharpe values are not "never greater". -/
theorem c5_counterexample :
    floatSharpe 1 (3/100) 0 = FV.pinf ∧
    (∃ x : ℝ, floatSharpe (1/10) (3/100) (1/100) = FV.fin x) ∧
    fvIdxmax [floatSharpe 1 (3/100) 0, floatSharpe (1/10) (3/100) (1/100)] = some 0 := by
  have h0 : floatSharpe 1 (3/100) 0 = FV.pinf := floatSharpe_pos_zero_vol (by norm_num)
  have h1 : floatSharpe (1/10) (3/100) (1/100)
      = FV.fin ((((1/10 : ℚ) : ℝ) - ((3/100 : ℚ) : ℝ)) / Real.sqrt ((1/100 : ℚ) : ℝ)) :=
    floatSharpe_pos_q (by norm_num)
  refine ⟨h0, ⟨_, h1⟩, ?_⟩
  rw [h0, h1]
  exact fvIdxmax_pinf_fin _

/-- C5 (amended): a zero-volatility sample never has a finite Sharpe
ratio, and the sample designated by idxmax is never a NaN-Sharpe sample
(pandas skips NaN); however a zero-volatility sample with return above
the risk-free rate has Sharpe ratio plus infinity and does win the
max-Sharpe comparison, as the counterexample shows. -/
theorem c5_nonfinite_handling :
    (∀ ret rate : ℚ, ∀ x : ℝ, floatSharpe ret rate 0 ≠ FV.fin x) ∧
    (∀ (l : List FV) (i : Nat), fvIdxmax l = some i → (l.getD i FV.nan).isNan = false) := by
  constructor
  · intro ret rate x
    rw [floatSharpe, if_neg (lt_irrefl 0), if_pos rfl]
    split_ifs <;> simp
  · intro l i h
    rw [fvIdxmax] at h
    have hmem := List.argmax_mem (Option.mem_def.mpr h)
    rw [List.mem_filter] at hmem
    simpa using hmem.2

/-- C5 witness: the non-finiteness and the NaN-skipping facts at
concrete inputs. -/
theorem c5_nonfinite_handling_witness :
    floatSharpe 1 (3/100) 0 ≠ FV.fin 7 ∧ (([FV.pinf] : List FV).getD 0 FV.nan).isNan = false := by
  have hidx : fvIdxmax [FV.pinf] = some 0 := by
    rw [fvIdxmax]
    have hlen : ([FV.pinf] : List FV).length = 1 := rfl
    rw [hlen, range_one_eq]
    have hfil : (([0] : List Nat).filter
        (fun i => !(([FV.pinf] : List FV).getD i FV.nan).isNan)) = [0] := by
      simp [List.filter_cons, List.getD, FV.isNan]
    rw [hfil, List.argmax_singleton]
  exact ⟨c5_nonfinite_handling.1 1 (3/100) 7, c5_nonfinite_handling.2 [FV.pinf] 0 hidx⟩

lemma pctChangeRow_length (prev cur : List (Option ℚ)) :
    (pctChangeRow prev cur).length = min prev.length cur.length := by
  simp [pctChangeRow]

lemma pctChangeFrom_rows_length (n : Nat) (rest : List (List (Option ℚ))) :
    ∀ prev : List (Option ℚ), prev.length = n → (∀ r ∈ rest, r.length = n) →
      ∀ r ∈ pctChangeFrom prev rest, r.length = n := by
  induction rest with
  | nil =>
      intro prev _ _ r hr
      simp [pctChangeFrom] at hr
  | cons cur rest ih =>
      intro prev hprev hall r hr
      simp only [pctChangeFrom, List.mem_cons] at hr
      rcases hr with rfl | hr
      · rw [pctChangeRow_length, hprev, hall cur (by simp)]
        simp
      · exact ih cur (hall cur (by simp)) (fun s hs => hall s (by simp [hs])) r hr

lemma pctChange_rows_length {prices : List (List (Option ℚ))} {n : Nat}
    (h : ∀ r ∈ prices, r.length = n) :
    ∀ r ∈ pctChange prices, r.length = n := by
  cases prices with
  | nil =>
      intro r hr
      simp [pctChange] at hr
  | cons r0 rest =>
      intro r hr
      simp only [pctChange, List.mem_cons] at hr
      rcases hr with rfl | hr
      · simp [h r0 (by simp)]
      · exact pctChangeFrom_rows_length n rest r0 (h r0 (by simp))
          (fun s hs => h s (by simp [hs])) r hr

lemma filterMap_if_eq_filter_map {α β : Type _} (p : α → Bool) (g : α → β) (l : List α) :
    l.filterMap (fun a => if p a then some (g a) else none) = (l.filter p).map g := by
  induction l with
  | nil => rfl
  | cons a t ih =>
      cases hpa : p a <;>
        simp [List.filterMap_cons, List.filter_cons, hpa, ih]

lemma row_getD_complete (r : List (Option ℚ)) :
    (∀ x ∈ r, x.isSome = true) → ∀ j, j < r.length →
      r.getD j none = some (r.reduceOption.getD j 0) := by
  induction r with
  | nil =>
      intro _ j hj
      simp at hj
  | cons a t ih =>
      intro hall j hj
      obtain ⟨v, rfl⟩ : ∃ v, a = some v := Option.isSome_iff_exists.mp (hall a (by simp))
      cases j with
      | zero => simp [List.reduceOption_cons_of_some]
      | succ k =>
          have hk := ih (fun x hx => hall x (by simp [hx])) k (by simpa using hj)
          simp only [List.getD_cons_succ, List.reduceOption_cons_of_some]
          exact hk

lemma returnsTable_rows {prices : List (List (Option ℚ))} {n : Nat}
    (h : ∀ r ∈ prices, r.length = n) :
    ∀ r ∈ returnsTable prices, r.length = n ∧ ∀ x ∈ r, x.isSome = true := by
  intro r hr
  rw [returnsTable, dropna, List.mem_filter] at hr
  refine ⟨pctChange_rows_length h r hr.1, ?_⟩
  intro x hx
  exact List.all_eq_true.mp hr.2 x hx

lemma specCleanRows_eq (prices : List (List (Option ℚ))) :
    specCleanRows prices = (returnsTable prices).map List.reduceOption := by
  rw [specCleanRows, returnsTable, dropna, filterMap_if_eq_filter_map]

lemma colVals_complete {t : List (List (Option ℚ))} {n j : Nat}
    (h : ∀ r ∈ t, r.length = n ∧ ∀ x ∈ r, x.isSome = true) (hj : j < n) :
    colVals t j = (t.map List.reduceOption).map (fun r => r.getD j 0) := by
  induction t with
  | nil => rfl
  | cons r rest ih =>
      have hr := h r (by simp)
      have hget : r.getD j none = some (r.reduceOption.getD j 0) :=
        row_getD_complete r hr.2 j (by rw [hr.1]; exact hj)
      simp only [colVals, List.filterMap_cons, hget, List.map_cons]
      congr 1
      exact ih (fun s hs => h s (List.mem_cons_of_mem _ hs))

lemma pairVals_complete {t : List (List (Option ℚ))} {n i j : Nat}
    (h : ∀ r ∈ t, r.length = n ∧ ∀ x ∈ r, x.isSome = true) (hi : i < n) (hj : j < n) :
    pairVals t i j
      = (t.map List.reduceOption).map (fun r => (r.getD i 0, r.getD j 0)) := by
  induction t with
  | nil => rfl
  | cons r rest ih =>
      have hr := h r (by simp)
      have hgi : r.getD i none = some (r.reduceOption.getD i 0) :=
        row_getD_complete r hr.2 i (by rw [hr.1]; exact hi)
      have hgj : r.getD j none = some (r.reduceOption.getD j 0) :=
        row_getD_complete r hr.2 j (by rw [hr.1]; exact hj)
      simp only [pairVals, List.filterMap_cons, hgi, hgj, List.map_cons]
      congr 1
      exact ih (fun s hs => h s (List.mem_cons_of_mem _ hs))

/-- C7: the statistics fed to the sampler are built exactly as the spec
describes: per-period fractional price changes, rows with any missing
value dropped, then per-ticker average times 252 for the mean-return
vector and pairwise covariance times 252 for the covariance matrix; the
pandas computation over the cleaned table (which skips missing entries)
agrees with the plain average and covariance over the clean return rows. -/
theorem c7_statistics_pipeline (prices : List (List (Option ℚ))) (n i j : Nat)
    (hrows : ∀ r ∈ prices, r.length = n) (hi : i < n) (hj : j < n) :
    mean_returns prices j = specMeanReturn prices j ∧
    cov_matrix prices i j = specCov prices i j := by
  have hcomplete := returnsTable_rows hrows
  constructor
  · rw [mean_returns, specMeanReturn, pandasColMean, specCleanRows_eq,
      colVals_complete hcomplete hj]
  · rw [cov_matrix, specCov, specCleanRows_eq, pairVals_complete hcomplete hi hj]

/-- C7 witness: the pipeline agreement on a concrete three-row price
table over two tickers. -/
theorem c7_statistics_pipeline_witness :
    mean_returns [[some 1, some 2], [some 2, some 4], [some 3, some 2]] 1
      = specMeanReturn [[some 1, some 2], [some 2, some 4], [some 3, some 2]] 1 ∧
    cov_matrix [[some 1, some 2], [some 2, some 4], [some 3, some 2]] 0 1
      = specCov [[some 1, some 2], [some 2, some 4], [some 3, some 2]] 0 1 :=
  c7_statistics_pipeline [[some 1, some 2], [some 2, some 4], [some 3, some 2]] 2 0 1
    (by simp [List.forall_mem_cons]) (by norm_num) (by norm_num)
